import Mathlib

/-!
# Verification of the ac_pdftools unwanted-element pipeline

A shallow embedding of the core of the `pdf` package of the repository
(`analyze.go`, `page_utils.go` and the element-removal file): the tabular-row
splitter, prefix extraction, file-size parsing, Pass A / Pass B candidate
detection, candidate resolution with its four fallback strategies, and the
page-specifier parser.

Modelling conventions:
* Go strings are modelled as `String` / `List Char` (the inputs of interest are
  ASCII plus the box-drawing character, so byte indexing and rune indexing
  agree on everything we evaluate);
* Go `float64` is modelled as `ℚ` (exact rational arithmetic; the spec's
  thresholds `0.8`, `30`, `0.95` and all concrete inputs used below are far
  from any float-rounding boundary);
* Go `int` is modelled as `ℤ` where negative values are reachable (parsed page
  numbers, widths) and as `ℕ` for the page total (parsed from a `\d+` match);
* Go maps are modelled as insertion-ordered association lists; where the code
  *iterates* over a map (whose order Go leaves unspecified) the iteration
  order is an explicit parameter, so that one Lean evaluation corresponds to
  one possible execution of the program;
* the external `pdfcpu` subprocess boundary is out of scope (spec §1); removal
  operations are modelled as the list of external calls the code would issue.
-/

namespace AcPdfTools

/-- The whitespace class of Go's regexp `\s` and of `strings.TrimSpace` /
`strings.Fields` restricted to ASCII: space, tab, newline, carriage return,
vertical tab, form feed. -/
def isSpaceCh (c : Char) : Bool :=
  c = ' ' || c = '\t' || c = '\n' || c = '\r' || c = '\x0b' || c = '\x0c'

/-- `strings.TrimSpace` (ASCII): drop leading and trailing whitespace. -/
def trimSpace (s : String) : String :=
  String.mk (((s.toList.dropWhile isSpaceCh).reverse.dropWhile isSpaceCh).reverse)

/-- `strings.Split(s, sep)` for a one-character separator, on char lists.
Always returns at least one piece; empty pieces are kept, as in Go. -/
def splitListOn (sep : Char) : List Char → List (List Char)
  | [] => [[]]
  | c :: rest =>
    if c = sep then [] :: splitListOn sep rest
    else
      match splitListOn sep rest with
      | t :: ts => (c :: t) :: ts
      | [] => [[c]]

/-- `strings.Split` on `String`s (single-character separator). -/
def goSplit (s : String) (sep : Char) : List String :=
  (splitListOn sep s.toList).map String.mk

/-- `strings.HasPrefix`, on the character lists of the two strings. -/
def goHasPrefix (s pre : String) : Bool :=
  pre.toList.isPrefixOf s.toList

theorem splitListOn_ne_nil (sep : Char) (cs : List Char) : splitListOn sep cs ≠ [] := by
  induction cs with
  | nil => simp [splitListOn]
  | cons c rest ih =>
    unfold splitListOn
    by_cases h : c = sep
    · simp [h]
    · simp only [if_neg h]
      cases hr : splitListOn sep rest with
      | nil => simp
      | cons t ts => simp

/-- The first piece of a single-character split is the longest prefix free of
the separator. -/
theorem splitListOn_headq (sep : Char) (cs : List Char) :
    (splitListOn sep cs).head? = some (cs.takeWhile (· ≠ sep)) := by
  induction cs with
  | nil => simp [splitListOn, List.takeWhile]
  | cons c rest ih =>
    unfold splitListOn
    by_cases h : c = sep
    · simp [h, List.takeWhile]
    · simp only [if_neg h]
      cases hr : splitListOn sep rest with
      | nil => exact absurd hr (splitListOn_ne_nil sep rest)
      | cons t ts =>
        rw [hr] at ih
        simp only [List.head?_cons, Option.some.injEq] at ih
        simp only [List.head?_cons, Option.some.injEq, List.takeWhile]
        simp [h, ih]

/-- A single-character split has a second piece iff the separator occurs. -/
theorem splitListOn_length (sep : Char) (cs : List Char) :
    2 ≤ (splitListOn sep cs).length ↔ sep ∈ cs := by
  induction cs with
  | nil => simp [splitListOn]
  | cons c rest ih =>
    unfold splitListOn
    by_cases h : c = sep
    · have h1 : 1 ≤ (splitListOn sep rest).length :=
        List.length_pos.mpr (splitListOn_ne_nil sep rest)
      simp [h]
      omega
    · simp only [if_neg h]
      cases hr : splitListOn sep rest with
      | nil => exact absurd hr (splitListOn_ne_nil sep rest)
      | cons t ts =>
        rw [hr] at ih
        simp only [List.length_cons] at ih ⊢
        rw [List.mem_cons]
        have hne : ¬ sep = c := fun hh => h hh.symm
        simp [hne, ← ih]

/-- `strconv.Atoi`: optional sign, then one or more decimal digits; anything
else is an error.  Overflow is not modelled (results are unbounded `ℤ`). -/
def parseAtoiList (cs : List Char) : Option Int :=
  let core (ds : List Char) : Option Nat :=
    if ds = [] ∨ ¬ ds.all (·.isDigit) then none
    else some (ds.foldl (fun acc d => acc * 10 + (d.toNat - '0'.toNat)) 0)
  match cs with
  | '+' :: rest => (core rest).map (Int.ofNat ·)
  | '-' :: rest => (core rest).map (fun n => -(Int.ofNat n))
  | _ => (core cs).map (Int.ofNat ·)

def parseAtoi (s : String) : Option Int := parseAtoiList s.toList

/-- `strconv.ParseFloat` restricted to the shapes `parseFileSizeKB` can feed
it: an optional integer part, an optional single dot, an optional fractional
part (not both parts empty).  Exact rational result. -/
def parseDecimal (s : String) : Option ℚ :=
  match splitListOn '.' s.toList with
  | [a] =>
    if a = [] ∨ ¬ a.all (·.isDigit) then none
    else some ((a.foldl (fun acc d => acc * 10 + (d.toNat - '0'.toNat)) 0 : ℕ) : ℚ)
  | [a, b] =>
    if (a = [] ∧ b = []) ∨ ¬ a.all (·.isDigit) ∨ ¬ b.all (·.isDigit) then none
    else
      let ip : ℕ := a.foldl (fun acc d => acc * 10 + (d.toNat - '0'.toNat)) 0
      let fp : ℕ := b.foldl (fun acc d => acc * 10 + (d.toNat - '0'.toNat)) 0
      some ((ip : ℚ) + (fp : ℚ) / ((10 : ℚ) ^ b.length))
  | _ => none

/-- ASCII lower-casing of one character (`strings.ToLower` on the IDs that
occur here, which are ASCII). -/
def lowerCh (c : Char) : Char :=
  if 'A' ≤ c ∧ c ≤ 'Z' then Char.ofNat (c.toNat + 32) else c

/-- ASCII upper-casing of one character. -/
def upperCh (c : Char) : Char :=
  if 'a' ≤ c ∧ c ≤ 'z' then Char.ofNat (c.toNat - 32) else c

def lowerStr (s : String) : String := String.mk (s.toList.map lowerCh)

def upperStr (s : String) : String := String.mk (s.toList.map upperCh)

/-- Truncation of a nonnegative rational to `ℕ`, Go's `int(x)` conversion for
the nonnegative float values it is applied to here. -/
def truncNat (q : ℚ) : ℕ := (⌊q⌋).toNat

/-- Round half to even, the rounding of Go's `fmt` verbs `%.0f` / `%.1f`. -/
def roundHalfEven (q : ℚ) : ℤ :=
  let n := ⌊q⌋
  let r := q - n
  if r < 1/2 then n
  else if 1/2 < r then n + 1
  else if n % 2 = 0 then n else n + 1

/-- `fmt.Sprintf("%.0f", q)` for the nonnegative values used in size keys. -/
def formatRat0 (q : ℚ) : String := toString (roundHalfEven q)

/-- `fmt.Sprintf("%.1f", q)` for nonnegative `q`. -/
def formatRat1 (q : ℚ) : String :=
  let m := roundHalfEven (q * 10)
  toString (m / 10) ++ "." ++ toString (m % 10)

/-- `strconv.FormatBool`. -/
def formatBool (b : Bool) : String := if b then "true" else "false"

/-- The dash branch of `extractIdPrefix` (analyze.go):
`strings.Contains(id, "-")`, then `parts := strings.Split(id, "-")` and
`parts[0]` when `len(parts) > 1 && len(parts[0]) > 0`. -/
def dashSegOf (cs : List Char) : Option String :=
  if '-' ∈ cs then
    match splitListOn '-' cs with
    | p :: _ :: _ => if p ≠ [] then some (String.mk p) else none
    | _ => none
  else none

/-- Embedding of `extractIdPrefix` (analyze.go): known literal patterns first,
then the text before the first `-` when non-empty, then the first 3 characters
(5 when the ID is longer than 5), else `"unknown"`.  Note: the Go code never
treats `_` as a delimiter here. -/
def extractIdPfx (id : String) : String :=
  if goHasPrefix id "Image-" then "Image"
  else if goHasPrefix id "Img" then "Img"
  else if goHasPrefix id "WM-" || goHasPrefix id "Watermark" then "Watermark"
  else
    match dashSegOf id.toList with
    | some p => p
    | none =>
      if 3 ≤ id.toList.length then
        String.mk (id.toList.take (if 5 < id.toList.length then 5 else 3))
      else "unknown"

/-- Embedding of `parseFileSizeKB` (analyze.go): upper-case, strip commas and
spaces, read a leading run of digits/dots, read the unit, convert to KB. -/
def parseFileSizeKB (sizeStr : String) : ℚ :=
  let cleaned := ((trimSpace sizeStr).toList.map upperCh).filter
    (fun c => ¬ (c = ',' ∨ c = ' '))
  let numChars := cleaned.takeWhile (fun c => c.isDigit ∨ c = '.')
  let unit := String.mk (cleaned.dropWhile (fun c => c.isDigit ∨ c = '.'))
  if numChars = [] then 0
  else
    match parseDecimal (String.mk numChars) with
    | none => 0
    | some num =>
      if goHasPrefix unit "KB" || goHasPrefix unit "K" then num
      else if goHasPrefix unit "MB" || goHasPrefix unit "M" then num * 1024
      else if goHasPrefix unit "GB" || goHasPrefix unit "G" then num * 1024 * 1024
      else if goHasPrefix unit "B" || unit = "" then num / 1024
      else num / 1024

/-! ## Data model (analyze.go) -/

/-- `imageInfo`: processed image information (analyze.go).  `width`/`height`
are Go `int` (0 when unparsable). -/
structure imageInfo where
  id : String
  obj : String
  width : ℤ
  height : ℤ
  size : String
  softMask : Bool
  imgMask : Bool
  colorSpace : String
  deriving DecidableEq, Repr

/-- `imageWithPage`: an image together with its page number. -/
structure imageWithPage where
  img : imageInfo
  page : ℤ
  deriving DecidableEq, Repr

/-- `UnwantedElementCandidate`.  The Go field `Type` is called `ctype` here;
`Metadata` (a Go string map with the literal keys below) is an association
list. -/
structure UnwantedElementCandidate where
  ctype : String
  id : String
  page : ℤ
  description : String
  confidence : ℚ
  metadata : List (String × String)
  deriving DecidableEq, Repr

def emptyImageInfo : imageInfo := ⟨"", "", 0, 0, "", false, false, ""⟩

/-- Association-list lookup (Go map read `m[k]`). -/
def alookup {κ α : Type} [DecidableEq κ] (k : κ) : List (κ × α) → Option α
  | [] => none
  | (k', v) :: rest => if k' = k then some v else alookup k rest

/-- `m[k] = append(m[k], v)` on an insertion-ordered association list. -/
def assocAppend {κ α : Type} [DecidableEq κ] (m : List (κ × List α)) (k : κ) (v : α) :
    List (κ × List α) :=
  match m with
  | [] => [(k, [v])]
  | (k', vs) :: rest =>
    if k' = k then (k', vs ++ [v]) :: rest else (k', vs) :: assocAppend rest k v

/-- From part_004: `MinPageCoverageThreshold = 0.8`. -/
def MinPageCoverageThreshold : ℚ := 4/5

/-- From part_004: `MinWatermarkFileSizeKB = 30`. -/
def MinWatermarkFileSizeKB : ℚ := 30

/-- The enhanced signature of analyze.go:
`fmt.Sprintf("%dx%d_%s_%s_prefix:%s", width, height, colorSpace, size, prefix)`. -/
def sigOf (img : imageInfo) : String :=
  toString img.width ++ "x" ++ toString img.height ++ "_" ++ img.colorSpace ++ "_"
    ++ img.size ++ "_prefix:" ++ extractIdPfx img.id

/-- The candidate-lookup signature of the Pass-B representative search:
`fmt.Sprintf("%dx%d_%s_%s", ...)` — note the missing `_prefix:` suffix. -/
def testSigOf (img : imageInfo) : String :=
  toString img.width ++ "x" ++ toString img.height ++ "_" ++ img.colorSpace ++ "_" ++ img.size

/-- Go `signature[:8]` (ASCII slice). -/
def takeStr (n : ℕ) (s : String) : String := String.mk (s.toList.take n)

/-! ## Pass A: `detectFullPageUnwantedElements` -/

/-- The size floor test of Pass A: `parseFileSizeKB(size) >= MinWatermarkFileSizeKB`. -/
def qualifiesSize (ip : imageWithPage) : Bool :=
  MinWatermarkFileSizeKB ≤ parseFileSizeKB ip.img.size

/-- The rounded size key: `fmt.Sprintf("%.0fKB", fileSizeKB)`. -/
def sizeKeyOf (ip : imageWithPage) : String :=
  formatRat0 (parseFileSizeKB ip.img.size) ++ "KB"

/-- The `imagesBySize` grouping loop of `detectFullPageUnwantedElements`:
images below the 30KB floor are dropped, the rest are appended under their
rounded size key. -/
def buildSizeGroups (l : List imageWithPage) : List (String × List imageWithPage) :=
  l.foldl (fun m ip => if qualifiesSize ip then assocAppend m (sizeKeyOf ip) ip else m) []

/-- The representative chosen by the `pagesCovered` loop: the first image of
the size group whose id is non-empty (the zero value if none). -/
def pickRepresentative (l : List imageWithPage) : imageInfo :=
  l.foldl (fun acc ip => if acc.id = "" then ip.img else acc) emptyImageInfo

/-- `len(pagesCovered)`: the number of distinct pages of a size group. -/
def distinctPageCount (l : List imageWithPage) : ℕ :=
  ((l.map (·.page)).dedup).length

/-- The body of the per-size-group loop of `detectFullPageUnwantedElements`
(analyze.go lines 649–733): skip groups with fewer occurrences than
`totalPages`, then emit one candidate when the distinct-page coverage ratio
reaches the threshold. -/
def emitForSizeGroup (pfx : String) (totalPages : ℕ) (sizeKey : String)
    (sizeGroup : List imageWithPage) : List UnwantedElementCandidate :=
  if sizeGroup.length < totalPages then []
  else
    let representativeImg := pickRepresentative sizeGroup
    let coverageCount := distinctPageCount sizeGroup
    let coveragePercent : ℚ := (coverageCount : ℚ) / (totalPages : ℚ)
    if MinPageCoverageThreshold ≤ coveragePercent then
      let signature := sigOf representativeImg
      let confidence : ℚ :=
        if coverageCount = totalPages then 19/20 else 4/5 + coveragePercent * (15/100)
      let coverageStr : String :=
        if coverageCount = totalPages then "100%" else formatRat0 (coveragePercent * 100) ++ "%"
      let candidateType : String :=
        if coverageCount = totalPages then "fullpage_watermark" else "repeating_watermark"
      let description :=
        "Unwanted element (prefix '" ++ pfx ++ "'): size " ++ toString representativeImg.width
          ++ "x" ++ toString representativeImg.height ++ " (" ++ representativeImg.colorSpace
          ++ "), file size " ++ sizeKey ++ ", appears on " ++ toString coverageCount ++ "/"
          ++ toString totalPages ++ " pages (" ++ coverageStr ++ ")"
      [{ ctype := "image"
         id := candidateType ++ "_" ++ pfx ++ "_" ++ sizeKey
         page := 0
         description := description
         confidence := confidence
         metadata :=
           [("signature", signature), ("prefix", pfx),
            ("file_size_kb", formatRat1 (parseFileSizeKB representativeImg.size)),
            ("page_count", toString coverageCount), ("total_pages", toString totalPages),
            ("coverage", coverageStr), ("type", candidateType),
            ("soft_mask", formatBool representativeImg.softMask),
            ("image_mask", formatBool representativeImg.imgMask),
            ("object", representativeImg.obj), ("image_id", representativeImg.id)] }]
    else []

/-- The per-prefix body of `detectFullPageUnwantedElements`: the
`minImagesNeeded` gate, size grouping, and the loop over size groups. -/
def detectForPfx (pfx : String) (images : List imageWithPage) (totalPages : ℕ) :
    List UnwantedElementCandidate :=
  let minImagesNeeded := truncNat ((totalPages : ℚ) * MinPageCoverageThreshold)
  if images.length < minImagesNeeded then []
  else
    let imagesBySize := buildSizeGroups images
    if imagesBySize.length = 0 then []
    else imagesBySize.flatMap (fun pr => emitForSizeGroup pfx totalPages pr.1 pr.2)

/-- `detectFullPageUnwantedElements`, iterating the prefix groups in the
order of the given association list. -/
def detectFullPageUnwanted (byPfx : List (String × List imageWithPage)) (totalPages : ℕ) :
    List UnwantedElementCandidate :=
  byPfx.flatMap (fun pr => detectForPfx pr.1 pr.2 totalPages)

/-! ## Pass B: repeating signatures (`analyzeImages` second half) -/

/-- The inner loop of `hasContinuousRange`, carrying the previous element,
the current run length and the maximum run length seen. -/
def contRun : ℤ → List ℤ → ℕ → ℕ → ℕ
  | _, [], _, maxc => maxc
  | prev, x :: xs, cur, maxc =>
    if x = prev + 1 then contRun x xs (cur + 1) (max maxc (cur + 1))
    else contRun x xs 1 maxc

/-- `hasContinuousRange` (analyze.go): the list (in its given order) contains
a maximal consecutive run of length `>= minLength`; runs of length 1 never
update the maximum, exactly as in the Go loop. -/
def hasContinuousRange (pages : List ℤ) (minLength : ℕ) : Bool :=
  if pages.length < minLength then false
  else
    match pages with
    | [] => decide (minLength ≤ 0)
    | p :: rest => decide (minLength ≤ contRun p rest 1 0)

/-- `calculateRepeatingUnwantedElementConfidence`. -/
def calculateRepeatingConf (img : imageInfo) (pageCount totalPages : ℕ) : ℚ :=
  let pageFrac : ℚ := (pageCount : ℚ) / (totalPages : ℚ)
  let c1 : ℚ := 4/10 + pageFrac * (6/10)
  let c2 : ℚ := if 300 < img.width ∨ 400 < img.height then c1 + 15/100 else c1
  let c3 : ℚ := if 500 < img.width ∨ 700 < img.height then c2 + 15/100 else c2
  let c4 : ℚ := if img.softMask then c3 + 5/100 else c3
  if 1 < c4 then 1 else c4

/-- The per-signature body of the Pass-B loop (analyze.go lines 485–551):
skip signatures claimed by Pass A, threshold / contiguous-run test, then the
representative lookup with `testSigOf` (which never matches `sigOf`, see
`analyzeImagesCore_passB_empty_representative` below) and candidate
construction. -/
def emitForSignature (pageEntries : List (ℤ × List imageInfo)) (totalPages minPages : ℕ)
    (handled : List String) (signature : String) (pages : List ℤ) :
    List UnwantedElementCandidate :=
  if handled.contains signature then []
  else if minPages ≤ pages.length ∨ hasContinuousRange pages minPages then
    let firstPage := pages.headD 0
    let pageImgs := (alookup firstPage pageEntries).getD []
    let firstImg := (pageImgs.find? (fun img => testSigOf img = signature)).getD emptyImageInfo
    let confidence := calculateRepeatingConf firstImg pages.length totalPages
    let pfxB := extractIdPfx firstImg.id
    let description : String :=
      if pfxB ≠ "unknown" ∧ pfxB ≠ "" then
        "Repeating unwanted element image (prefix '" ++ pfxB ++ "'): size "
          ++ toString firstImg.width ++ "x" ++ toString firstImg.height ++ " ("
          ++ firstImg.colorSpace ++ "), file size " ++ firstImg.size ++ ", appears on "
          ++ toString pages.length ++ "/" ++ toString totalPages ++ " pages"
      else
        "Repeating unwanted element image: size " ++ toString firstImg.width ++ "x"
          ++ toString firstImg.height ++ " (" ++ firstImg.colorSpace ++ "), appears on "
          ++ toString pages.length ++ "/" ++ toString totalPages ++ " pages ("
          ++ firstImg.size ++ ")"
    [{ ctype := "image"
       id := "repeating_unwanted_element_" ++ takeStr 8 signature
       page := 0
       description := description
       confidence := confidence
       metadata :=
         [("signature", signature), ("page_count", toString pages.length),
          ("max_pages", toString totalPages), ("prefix", pfxB),
          ("soft_mask", formatBool firstImg.softMask),
          ("image_mask", formatBool firstImg.imgMask),
          ("type", "repeating_unwanted_element"),
          ("object", firstImg.obj), ("image_id", firstImg.id)] }]
  else []

/-- `imageSignatures`: signature → pages, filled in the iteration order of
`imagesByPage` given by `pageEntries`. -/
def buildSignatureMap (pageEntries : List (ℤ × List imageInfo)) : List (String × List ℤ) :=
  pageEntries.foldl
    (fun m pr => pr.2.foldl (fun m' img => assocAppend m' (sigOf img) pr.1) m) []

/-- `imagesByPrefix`: prefix → images-with-page, skipping prefix `"unknown"`,
in the iteration order of `imagesByPage` given by `pageEntries`. -/
def buildPfxMap (pageEntries : List (ℤ × List imageInfo)) :
    List (String × List imageWithPage) :=
  pageEntries.foldl
    (fun m pr =>
      pr.2.foldl
        (fun m' img =>
          let p := extractIdPfx img.id
          if p ≠ "unknown" then assocAppend m' p ⟨img, pr.1⟩ else m') m) []

/-- The candidate-producing core of `analyzeImages` (analyze.go lines
422–578), starting from the parsed per-page image table.  `pageEntries` is
the entry list of the Go map `imagesByPage` *in the order the program happens
to iterate it* — Go leaves this order unspecified, so every permutation of
the entries is a possible execution of the program. -/
def analyzeImagesCore (pageEntries : List (ℤ × List imageInfo)) (totalPages : ℕ) :
    List UnwantedElementCandidate :=
  let imageSignatures := buildSignatureMap pageEntries
  let imagesByPfx := buildPfxMap pageEntries
  let fullPageCandidates := detectFullPageUnwanted imagesByPfx totalPages
  let handled := fullPageCandidates.filterMap (fun c => alookup "signature" c.metadata)
  let minPages := truncNat ((totalPages : ℚ) * MinPageCoverageThreshold)
  fullPageCandidates ++
    imageSignatures.flatMap
      (fun pr => emitForSignature pageEntries totalPages minPages handled pr.1 pr.2)

/-! ## Candidate resolution and removal (`removeImagesByIDs`) -/

/-- One parsed row of the occurrence table built inside `removeImagesByIDs`. -/
structure imageOccurrence where
  page : ℤ
  obj : String
  id : String
  deriving DecidableEq, Repr

/-- The local `extractPrefix` closure of `removeImagesByIDs`: text up to and
*including* the first `-` when it is not at position 0, else likewise for
`_`, else `""`. -/
def extractPfxLocal (id : String) : String :=
  let cs := id.toList
  let viaChar (c : Char) : Option String :=
    match cs.findIdx? (· = c) with
    | some i => if 0 < i then some (String.mk (cs.take (i + 1))) else none
    | none => none
  ((viaChar '-').orElse (fun _ => viaChar '_')).getD ""

/-- The strategy-2 match: the occurrence id starts with the stored prefix
(bare or followed by `-`/`_`), or its own extracted prefix equals it. -/
def pfxMatch (pfx : String) (o : imageOccurrence) : Bool :=
  goHasPrefix o.id pfx || goHasPrefix o.id (pfx ++ "-") || goHasPrefix o.id (pfx ++ "_")
    || extractPfxLocal o.id = pfx

/-- Strategy 3's prefix re-derivation from the signature string: the text
after the last `"prefix:"`, trimmed, cut at the first inner whitespace. -/
def lastSubstrIdx (cs pat : List Char) : Option ℕ :=
  ((List.range (cs.length + 1)).filter (fun i => (cs.drop i).take pat.length = pat)).getLast?

def sigPfxOf (signature : String) : String :=
  match lastSubstrIdx signature.toList ("prefix:".toList) with
  | none => ""
  | some i =>
    let rest := trimSpace (String.mk (signature.toList.drop (i + 7)))
    match rest.toList.findIdx? (fun c => c = ' ' ∨ c = '\t' ∨ c = '\n') with
    | some j => if 0 < j then String.mk (rest.toList.take j) else rest
    | none => rest

/-- `strings.ToUpper(prefix[:1]) + strings.ToLower(prefix[1:])`. -/
def titleStr (s : String) : String :=
  match s.toList with
  | [] => ""
  | c :: rest => String.mk (upperCh c :: rest.map lowerCh)

/-- The per-occurrence match of strategy 3 (case-insensitive, with dash /
underscore / capitalised / upper-cased variants). -/
def strat3Pred (pfx3 : String) (o : imageOccurrence) : Bool :=
  let pLower := lowerStr pfx3
  let pUpper := upperStr pfx3
  let pTitle := titleStr pfx3
  let occIDLower := lowerStr o.id
  let occPfxLower := lowerStr (extractPfxLocal o.id)
  goHasPrefix occIDLower pLower
    || goHasPrefix occIDLower (pLower ++ "-") || goHasPrefix occIDLower (pLower ++ "_")
    || occPfxLower = pLower || goHasPrefix occPfxLower pLower
    || (pTitle ≠ "" &&
        (goHasPrefix o.id pTitle || goHasPrefix o.id (pTitle ++ "-")
          || goHasPrefix o.id (pTitle ++ "_")))
    || (pUpper ≠ "" &&
        (goHasPrefix o.id pUpper || goHasPrefix o.id (pUpper ++ "-")
          || goHasPrefix o.id (pUpper ++ "_")))

/-- Strategy 3 (signature-derived, case-insensitive prefix match). -/
def strategy3 (signature pfx : String) (allOcc : List imageOccurrence) :
    List imageOccurrence :=
  if signature ≠ "" then
    let sigP := sigPfxOf signature
    let pfx3 := if sigP ≠ "" then sigP else pfx
    if pfx3 ≠ "" ∧ pfx3 ≠ "unknown" then allOcc.filter (strat3Pred pfx3) else []
  else []

/-- Strategy 4 (single-occurrence fallback by object-at-page or id-at-page). -/
def strategy4 (imgID objNr : String) (candPage : ℤ) (allOcc : List imageOccurrence) :
    List imageOccurrence :=
  if objNr ≠ "" ∧ 0 < candPage then
    if imgID ≠ "" then
      (allOcc.find? (fun o => o.id = imgID ∧ o.page = candPage)).toList
    else
      (allOcc.find? (fun o => o.obj = objNr ∧ o.page = candPage)).toList
  else []

/-- The four-strategy fallback chain of `removeImagesByIDs` for one selected
candidate, on the freshly parsed occurrence table `allOcc`.  Strategy 1's map
lookup `imageOccurrences[imgID]` is the sub-list of occurrences with that id
(in table order); it "finds" the key iff that sub-list is non-empty. -/
def resolveOccurrences (imgID pfx signature objNr : String) (candPage : ℤ)
    (allOcc : List imageOccurrence) : List imageOccurrence :=
  let s1 := if imgID ≠ "" then allOcc.filter (fun o => o.id = imgID) else []
  if s1 ≠ [] then s1
  else
    let s2 := if pfx ≠ "" then allOcc.filter (pfxMatch pfx) else []
    if s2 ≠ [] then s2
    else
      let s3 := strategy3 signature pfx allOcc
      if s3 ≠ [] then s3
      else strategy4 imgID objNr candPage allOcc

/-- Resolution for one candidate, reading `image_id` / `prefix` / `signature`
/ `object` from its metadata as the Go code does. -/
def resolveForCandidate (c : UnwantedElementCandidate) (allOcc : List imageOccurrence) :
    List imageOccurrence :=
  resolveOccurrences ((alookup "image_id" c.metadata).getD "")
    ((alookup "prefix" c.metadata).getD "") ((alookup "signature" c.metadata).getD "")
    ((alookup "object" c.metadata).getD "") c.page allOcc

/-- One external `pdfcpu images update` invocation: selector by object
reference or by `"page id"` pair. -/
inductive RemovalCall where
  | byObj (obj : String)
  | byPageId (page : ℤ) (id : String)
  deriving DecidableEq, Repr

/-- The `imagesToRemove` accumulation loop of `removeImagesByIDs`: candidates
whose ID is in the (whitespace-trimmed) selected set contribute all of their
resolved occurrences; candidates resolving to nothing contribute none (only a
diagnostic warning is logged). -/
def resolveSelected (candidates : List UnwantedElementCandidate) (selected : List String)
    (allOcc : List imageOccurrence) : List imageOccurrence :=
  candidates.flatMap
    (fun c => if (selected.map trimSpace).contains c.id then resolveForCandidate c allOcc
              else [])

/-- The removal chain: one external call per occurrence, by object number when
present, else by page/id pair, else a mid-chain error. -/
def buildCalls : List imageOccurrence → Except String (List RemovalCall)
  | [] => Except.ok []
  | o :: rest =>
    if o.obj ≠ "" then (buildCalls rest).map (RemovalCall.byObj o.obj :: ·)
    else if 0 < o.page ∧ o.id ≠ "" then
      (buildCalls rest).map (RemovalCall.byPageId o.page o.id :: ·)
    else Except.error "cannot identify image for removal: missing object number and page/ID"

def noMatchMsg : String :=
  "no matching images found for selected IDs. The images may be repeating watermarks that appear on multiple pages"

/-- `removeImagesByIDs` after the re-analysis and re-parse steps (both
abstracted into the `candidates` and `allOcc` inputs): resolve every selected
candidate, fail hard — before any external removal call — when the total is
zero, else issue the chained removal calls. -/
def removeImagesByIDsModel (candidates : List UnwantedElementCandidate)
    (selected : List String) (allOcc : List imageOccurrence) :
    Except String (List RemovalCall) :=
  let imagesToRemove := resolveSelected candidates selected allOcc
  if imagesToRemove = [] then Except.error noMatchMsg
  else buildCalls imagesToRemove

/-- `RemoveElementsByIDs` (part_003): type validation, then either the
watermark branch (whose outcome depends only on the external tool; passed in
abstractly as `watermarkResult`) or the selective image branch, which
requires a non-empty ID list before anything else happens. -/
def RemoveElementsByIDsModel (elementType : String) (elementIDs : List String)
    (candidates : List UnwantedElementCandidate) (allOcc : List imageOccurrence)
    (watermarkResult : Except String (List RemovalCall)) :
    Except String (List RemovalCall) :=
  if elementType ≠ "watermark" ∧ elementType ≠ "image" then
    Except.error ("invalid element type: " ++ elementType ++ " (supported: watermark, image)")
  else if elementType = "watermark" then watermarkResult
  else if elementIDs.isEmpty then
    Except.error "image removal requires element IDs to identify which images to remove"
  else removeImagesByIDsModel candidates elementIDs allOcc

/-! ## The tabular row splitter of `analyzeImages` (analyze.go lines 232–274) -/

/-- Trim every piece, drop the empty ones. -/
def normalizeParts (ps : List String) : List String :=
  (ps.map trimSpace).filter (fun s => s ≠ "")

theorem dropWhile_length_le (p : Char → Bool) (cs : List Char) :
    (cs.dropWhile p).length ≤ cs.length := by
  induction cs with
  | nil => simp [List.dropWhile]
  | cons c rest ih =>
    simp only [List.dropWhile]
    cases p c
    · simp
    · simp only [List.length_cons]
      omega

/-- `regexp.MustCompile("\\s{2,}").Split(line, -1)`: pieces separated by
maximal whitespace runs of length at least 2; a lone whitespace character
stays inside its piece. -/
def splitRunsAux : List Char → List Char → List (List Char)
  | [], cur => [cur.reverse]
  | c :: rest, cur =>
    if isSpaceCh c then
      match rest with
      | c2 :: rest2 =>
        if isSpaceCh c2 then
          cur.reverse :: splitRunsAux ((c2 :: rest2).dropWhile isSpaceCh) []
        else splitRunsAux (c2 :: rest2) (c :: cur)
      | [] => [(c :: cur).reverse]
    else splitRunsAux rest (c :: cur)
termination_by cs _ => cs.length
decreasing_by
  · have := dropWhile_length_le isSpaceCh (c2 :: rest2)
    simp at this ⊢
    omega
  · simp
  · simp

def splitOnRuns2 (line : String) : List String :=
  (splitRunsAux line.toList []).map String.mk

/-- The separator-selection chain of `analyzeImages`: the box-drawing
character if present, else pipe if present, else tab if present, else runs of
two or more spaces — selected by *presence*, not by the resulting field
count. -/
def splitRowPartsRaw (line : String) : List String :=
  if '│' ∈ line.toList then goSplit line '│'
  else if '|' ∈ line.toList then goSplit line '|'
  else if '\t' ∈ line.toList then goSplit line '\t'
  else splitOnRuns2 line

/-- The fields the parser works with for one row: chosen split, trimmed,
empties removed. -/
def splitRowParts (line : String) : List String := normalizeParts (splitRowPartsRaw line)

/-- The `len(parts) < 3` guard: a row whose chosen split produces fewer than
3 non-empty fields is skipped (`linesSkipped++`), otherwise its fields are
used. -/
def lineFields (line : String) : Option (List String) :=
  let ps := splitRowParts line
  if ps.length < 3 then none else some ps

/-- Modelled from the claim's words (C8): try every separator style in
priority order and use the *first one that actually yields at least 3
non-empty fields* for this row.  For comparison with `splitRowParts`. -/
def firstStyleWith3Fields (line : String) : Option (List String) :=
  ([goSplit line '│', goSplit line '|', goSplit line '\t', splitOnRuns2 line].map
      normalizeParts).find? (fun ps => 3 ≤ ps.length)

/-- Amended reading of the selection rule: the style whose separator
character occurs first in the priority list is selected, regardless of field
counts; the 2+-spaces style is the default. -/
def selectByPresence (line : String) : List String :=
  match ['│', '|', '\t'].find? (fun c => decide (c ∈ line.toList)) with
  | some c => normalizeParts (goSplit line c)
  | none => normalizeParts (splitOnRuns2 line)

/-! ## `ParsePageSpecifier` (page_utils.go) -/

def intRange (a b : ℤ) : List ℤ :=
  (List.range (b + 1 - a).toNat).map (fun i => a + (i : ℤ))

/-- One comma-separated part: a dash range (exactly two valid numbers, start
not exceeding end) or a single number. -/
def parsePart (part : List Char) : Option (List ℤ) :=
  if part.contains '-' then
    match splitListOn '-' part with
    | [a, b] =>
      match parseAtoiList a, parseAtoiList b with
      | some s, some e => if e < s then none else some (intRange s e)
      | _, _ => none
    | _ => none
  else (parseAtoiList part).map (fun n => [n])

/-- The inner loop of the adjacent-duplicate collapse: Go keeps entry `i` iff
it differs from entry `i-1` (`prev` is the *original* previous entry). -/
def dedupGo : ℤ → List ℤ → List ℤ
  | _, [] => []
  | prev, x :: xs => if x = prev then dedupGo x xs else x :: dedupGo x xs

/-- The sort-then-adjacent-dedup postlude of `ParsePageSpecifier`. -/
def dedupAdj : List ℤ → List ℤ
  | [] => []
  | a :: rest => a :: dedupGo a rest

/-- Insertion of one element into a `≤`-sorted integer list. -/
def orderedInsertZ (a : ℤ) : List ℤ → List ℤ
  | [] => [a]
  | b :: l => if a ≤ b then a :: b :: l else b :: orderedInsertZ a l

/-- Ascending sort.  On integers every correct ascending sort — `sort.Ints`
in Go, insertion sort here — produces the same output list, so this is a
faithful model of `sort.Ints(pageList)`. -/
def sortInts : List ℤ → List ℤ
  | [] => []
  | a :: l => orderedInsertZ a (sortInts l)

/-- `ParsePageSpecifier`: reject the empty string, strip all whitespace,
split on commas, parse each part, then sort and collapse adjacent
duplicates. -/
def ParsePageSpecifier (pages : String) : Option (List ℤ) :=
  if pages = "" then none
  else
    ((splitListOn ',' (pages.toList.filter (fun c => ¬ isSpaceCh c))).foldlM
        (fun acc part => (parsePart part).map (acc ++ ·)) ([] : List ℤ)).map
      (fun pageList => dedupAdj (sortInts pageList))

/-! ## Sortedness of `ParsePageSpecifier` results -/

theorem mem_orderedInsertZ (a x : ℤ) (l : List ℤ) (h : x ∈ orderedInsertZ a l) :
    x = a ∨ x ∈ l := by
  induction l with
  | nil => simp [orderedInsertZ] at h; simp [h]
  | cons b l ih =>
    unfold orderedInsertZ at h
    split at h
    · rcases List.mem_cons.mp h with h | h
      · exact Or.inl h
      · exact Or.inr h
    · rcases List.mem_cons.mp h with h | h
      · simp [h]
      · rcases ih h with h | h
        · exact Or.inl h
        · simp [h]

theorem orderedInsertZ_sorted (a : ℤ) (l : List ℤ) (h : l.Sorted (· ≤ ·)) :
    (orderedInsertZ a l).Sorted (· ≤ ·) := by
  induction l with
  | nil => simp [orderedInsertZ]
  | cons b l ih =>
    rw [List.sorted_cons] at h
    obtain ⟨hb, hl⟩ := h
    unfold orderedInsertZ
    split
    · rename_i hab
      rw [List.sorted_cons]
      refine ⟨?_, by rw [List.sorted_cons]; exact ⟨hb, hl⟩⟩
      intro x hx
      rcases List.mem_cons.mp hx with h | h
      · exact h ▸ hab
      · exact le_trans hab (hb x h)
    · rename_i hab
      push_neg at hab
      rw [List.sorted_cons]
      refine ⟨?_, ih hl⟩
      intro x hx
      rcases mem_orderedInsertZ a x l hx with h | h
      · exact h ▸ le_of_lt hab
      · exact hb x h

theorem sortInts_sorted (l : List ℤ) : (sortInts l).Sorted (· ≤ ·) := by
  induction l with
  | nil => simp [sortInts]
  | cons a l ih => exact orderedInsertZ_sorted a (sortInts l) ih

theorem mem_dedupGo (prev x : ℤ) (l : List ℤ) (h : x ∈ dedupGo prev l) : x ∈ l := by
  induction l generalizing prev with
  | nil => simp [dedupGo] at h
  | cons b l ih =>
    unfold dedupGo at h
    split at h
    · exact List.mem_cons_of_mem _ (ih b h)
    · rcases List.mem_cons.mp h with h | h
      · simp [h]
      · exact List.mem_cons_of_mem _ (ih b h)

theorem dedupGo_sorted (prev : ℤ) (l : List ℤ) (h : l.Sorted (· ≤ ·))
    (hlow : ∀ y ∈ l, prev ≤ y) :
    (dedupGo prev l).Sorted (· < ·) ∧ ∀ x ∈ dedupGo prev l, prev < x := by
  induction l generalizing prev with
  | nil => simp [dedupGo]
  | cons b l ih =>
    rw [List.sorted_cons] at h
    obtain ⟨hb, hl⟩ := h
    unfold dedupGo
    split
    · rename_i heq
      subst heq
      exact ih b hl hb
    · rename_i hne
      have hpb : prev < b := lt_of_le_of_ne (hlow b (by simp)) (fun hh => hne hh.symm)
      obtain ⟨hs, hgt⟩ := ih b hl hb
      constructor
      · rw [List.sorted_cons]
        exact ⟨hgt, hs⟩
      · intro x hx
        rcases List.mem_cons.mp hx with h | h
        · exact h ▸ hpb
        · exact lt_trans hpb (hgt x h)

theorem dedupAdj_sorted (l : List ℤ) (h : l.Sorted (· ≤ ·)) :
    (dedupAdj l).Sorted (· < ·) := by
  cases l with
  | nil => simp [dedupAdj]
  | cons a rest =>
    rw [List.sorted_cons] at h
    obtain ⟨ha, hrest⟩ := h
    unfold dedupAdj
    rw [List.sorted_cons]
    exact ⟨(dedupGo_sorted a rest hrest ha).2, (dedupGo_sorted a rest hrest ha).1⟩

/-- C9: `ParsePageSpecifier` on the spec's example inputs, and sortedness /
duplicate-freeness of every successful result.  `"1,3,5-7"` yields
`[1,3,5,6,7]`, `"5-5"` yields `[5]`, `"3-1"` and `""` fail, `"1,1,2"`
collapses to `[1,2]`, and any successfully parsed list is sorted ascending
with no duplicates. -/
theorem parsePageSpecifier_spec :
    ParsePageSpecifier "1,3,5-7" = some [1, 3, 5, 6, 7] ∧
    ParsePageSpecifier "5-5" = some [5] ∧
    ParsePageSpecifier "3-1" = none ∧
    ParsePageSpecifier "" = none ∧
    ParsePageSpecifier "1,1,2" = some [1, 2] ∧
    ∀ (s : String) (l : List ℤ), ParsePageSpecifier s = some l →
      l.Sorted (· ≤ ·) ∧ l.Nodup := by
  refine ⟨by decide, by decide, by decide, by decide, by decide, ?_⟩
  intro s l h
  unfold ParsePageSpecifier at h
  split at h
  · simp at h
  · obtain ⟨pl, _, hfl⟩ := Option.map_eq_some'.mp h
    have hlt : l.Sorted (· < ·) := hfl ▸ dedupAdj_sorted _ (sortInts_sorted pl)
    exact ⟨hlt.imp (fun h => le_of_lt h), List.Sorted.nodup hlt⟩

/-- Witness for C9: the sortedness conclusion applied at the concrete input
`"1,3,5-7"`. -/
theorem parsePageSpecifier_spec_witness :
    ([1, 3, 5, 6, 7] : List ℤ).Sorted (· ≤ ·) ∧ ([1, 3, 5, 6, 7] : List ℤ).Nodup :=
  parsePageSpecifier_spec.2.2.2.2.2 "1,3,5-7" [1, 3, 5, 6, 7] (by decide)

/-- C10: for element type `"image"`, `RemoveElementsByIDs` with an empty
selected-ID list fails immediately — before the re-analysis, the
image-listing call or any removal call (the returned value carries no
external calls), for any document state. -/
theorem removeElements_image_empty_ids (candidates : List UnwantedElementCandidate)
    (allOcc : List imageOccurrence) (wres : Except String (List RemovalCall)) :
    RemoveElementsByIDsModel "image" [] candidates allOcc wres =
      Except.error "image removal requires element IDs to identify which images to remove" := by
  rfl

/-- C7 counterexample: for the ID `"abc_def"` (no known literal, no dash) the
code falls through to the first-five-characters rule and returns `"abc_d"`,
not the text `"abc"` before the first `_` delimiter as the claim states. -/
theorem extractIdPfx_underscore_counterexample :
    extractIdPfx "abc_def" = "abc_d" ∧ extractIdPfx "abc_def" ≠ "abc" := by
  decide

/-- The dash branch in closed form: the (non-empty) text before the first
dash when a dash is present. -/
theorem dashSegOf_eq (cs : List Char) :
    dashSegOf cs =
      if ('-' ∈ cs ∧ cs.takeWhile (· ≠ '-') ≠ []) then
        some (String.mk (cs.takeWhile (· ≠ '-'))) else none := by
  by_cases hm : '-' ∈ cs
  · have hlen : 2 ≤ (splitListOn '-' cs).length := (splitListOn_length '-' cs).mpr hm
    have hhead := splitListOn_headq '-' cs
    unfold dashSegOf
    rw [if_pos hm]
    cases hsplit : splitListOn '-' cs with
    | nil => exact absurd hsplit (splitListOn_ne_nil '-' cs)
    | cons p ts =>
      cases ts with
      | nil => rw [hsplit] at hlen; simp at hlen
      | cons q ts' =>
        rw [hsplit] at hhead
        simp only [List.head?_cons, Option.some.injEq] at hhead
        subst hhead
        dsimp only
        by_cases hne : cs.takeWhile (· ≠ '-') ≠ []
        · rw [if_pos hne, if_pos ⟨hm, hne⟩]
        · rw [if_neg hne, if_neg (fun hh => hne hh.2)]
  · unfold dashSegOf
    rw [if_neg hm, if_neg (fun hh => hm hh.1)]

/-- C7 amended: for IDs not starting with a known literal pattern
(`"Image-"`, `"Img"`, `"WM-"`, `"Watermark"`), the prefix is the text before
the first `-` when the `-` is present and preceded by a non-empty segment
(underscore is *not* a delimiter); otherwise the first 3 characters (first 5
when the ID is longer than 5 characters); and `"unknown"` for IDs shorter
than 3 characters. -/
theorem extractIdPfx_amended (id : String)
    (h1 : goHasPrefix id "Image-" = false) (h2 : goHasPrefix id "Img" = false)
    (h3 : goHasPrefix id "WM-" = false) (h4 : goHasPrefix id "Watermark" = false) :
    ('-' ∈ id.toList ∧ id.toList.takeWhile (· ≠ '-') ≠ [] →
      extractIdPfx id = String.mk (id.toList.takeWhile (· ≠ '-'))) ∧
    (¬ ('-' ∈ id.toList ∧ id.toList.takeWhile (· ≠ '-') ≠ []) →
      (3 ≤ id.toList.length →
        extractIdPfx id = String.mk (id.toList.take (if 5 < id.toList.length then 5 else 3))) ∧
      (id.toList.length < 3 → extractIdPfx id = "unknown")) := by
  unfold extractIdPfx
  rw [h1, h2, h3, h4]
  simp only [Bool.false_eq_true, if_false, Bool.or_self]
  rw [dashSegOf_eq]
  constructor
  · intro hcond
    rw [if_pos hcond]
  · intro hnot
    rw [if_neg hnot]
    constructor
    · intro h3le
      rw [if_pos h3le]
    · intro hlt3
      rw [if_neg (by omega)]

/-- Witness for C7's amended theorem at the ID `"abc-def"`. -/
theorem extractIdPfx_amended_witness : extractIdPfx "abc-def" = "abc" := by
  have h := (extractIdPfx_amended "abc-def" (by decide) (by decide) (by decide)
    (by decide)).1 (by decide)
  rw [h]
  rfl

/-- C8 counterexample: the row `"1\t4 0 R\tImg-1 │ x"` contains the
box-drawing separator, whose split yields only 2 non-empty fields, so the
parser skips the row — it does *not* fall through to the tab style, which
would yield 3 fields as the claim asserts. -/
theorem splitRowParts_counterexample :
    lineFields "1\t4 0 R\tImg-1 │ x" = none ∧
    firstStyleWith3Fields "1\t4 0 R\tImg-1 │ x" = some ["1", "4 0 R", "Img-1 │ x"] := by
  decide

/-- C8 amended: the separator style for a row is chosen by the *presence* of
the separator character, in the priority order box-drawing, pipe, tab, runs
of 2+ spaces; a row whose chosen style yields fewer than 3 non-empty fields
is skipped, with no fall-through to later styles. -/
theorem splitRowParts_amended (line : String) :
    splitRowParts line = selectByPresence line ∧
    lineFields line =
      (if (splitRowParts line).length < 3 then none else some (splitRowParts line)) := by
  constructor
  · unfold splitRowParts splitRowPartsRaw selectByPresence
    by_cases hb : '│' ∈ line.data <;> by_cases hp : '|' ∈ line.data <;>
      by_cases ht : '\t' ∈ line.data <;> simp [List.find?, String.toList, hb, hp, ht]
  · rfl

/-- Witness for C8's amended theorem at a concrete pipe-separated row. -/
theorem splitRowParts_amended_witness :
    splitRowParts "1 | 2 0 R | Im1" = selectByPresence "1 | 2 0 R | Im1" :=
  (splitRowParts_amended "1 | 2 0 R | Im1").1

/-- C4: for a selected candidate whose stored `image_id` matches zero ids in
the freshly parsed occurrence table while its stored (non-empty) prefix
matches at least one occurrence id — as a direct prefix, with a `-`/`_`
suffix, or by extracted-prefix equality — the resolved occurrence set is
exactly the prefix-matching occurrences (strategy b), and the result is
independent of the stored signature, object reference and page: strategies c
and d are never reached.  (In this program the stored prefix metadata is
never the empty string, so `h2` is an invariant of every analysis
candidate.) -/
theorem resolveOccurrences_strategy2 (imgID pfx signature objNr : String) (candPage : ℤ)
    (allOcc : List imageOccurrence)
    (h1 : allOcc.filter (fun o => o.id = imgID) = [])
    (h2 : pfx ≠ "")
    (h3 : allOcc.filter (pfxMatch pfx) ≠ []) :
    resolveOccurrences imgID pfx signature objNr candPage allOcc =
      allOcc.filter (pfxMatch pfx) := by
  have hs1 : (if imgID ≠ "" then allOcc.filter (fun o => o.id = imgID) else []) = [] := by
    by_cases hid : imgID = ""
    · rw [if_neg (fun hh => hh hid)]
    · rw [if_pos hid]
      exact h1
  have hs2 : (if pfx ≠ "" then allOcc.filter (pfxMatch pfx) else []) =
      allOcc.filter (pfxMatch pfx) := if_pos h2
  simp only [resolveOccurrences]
  simp only [hs1, hs2]
  rw [if_neg (by simp), if_pos h3]

/-- Witness for C4 at a concrete occurrence table: stored id `"ZZ-9"` matches
nothing, prefix `"AB"` matches the two `AB-*` occurrences but not `"CD-2"`. -/
theorem resolveOccurrences_strategy2_witness :
    resolveOccurrences "ZZ-9" "AB" "100x100_RGB_31KB_prefix:AB" "7 0 R" 1
        [⟨1, "7 0 R", "AB-1"⟩, ⟨2, "9 0 R", "AB-2"⟩, ⟨2, "9 0 R", "CD-2"⟩] =
      [⟨1, "7 0 R", "AB-1"⟩, ⟨2, "9 0 R", "AB-2"⟩] := by
  have h := resolveOccurrences_strategy2 "ZZ-9" "AB" "100x100_RGB_31KB_prefix:AB" "7 0 R" 1
    [⟨1, "7 0 R", "AB-1"⟩, ⟨2, "9 0 R", "AB-2"⟩, ⟨2, "9 0 R", "CD-2"⟩]
    (by decide) (by decide) (by decide)
  rw [h]
  decide

/-! ## Concrete documents for the C2 / C3 code-bug evaluations -/

/-- One image record: id `"ABC-1"`, object `"7 0 R"`, 100×100, 10KB,
DeviceRGB — a small repeating image, below the Pass-A size floor. -/
def c2img : imageInfo := ⟨"ABC-1", "7 0 R", 100, 100, "10KB", false, false, "DeviceRGB"⟩

/-- A 5-page document carrying `c2img` on pages 1–4 (no occurrence on
page 5): Pass A is silent (10KB < 30KB floor), Pass B emits one candidate. -/
def c2entries : List (ℤ × List imageInfo) :=
  [(1, [c2img]), (2, [c2img]), (3, [c2img]), (4, [c2img])]

/-- C2 (code bug): on `c2entries` the analysis emits exactly one (Pass-B)
candidate, and its `metadata["object"]` and `metadata["image_id"]` are both
the empty string even though every record of the candidate's group has a
non-empty id and object — the representative lookup compares the
prefix-less `testSigOf` against the `_prefix:`-suffixed signature and never
matches, so the zero-valued `imageInfo` is stored.  This contradicts the
claimed invariant (and the code's own intent, per its `// Store object
number for removal` comments). -/
theorem analyzeImagesCore_passB_empty_representative :
    ((analyzeImagesCore c2entries 5).map
        (fun c => (alookup "image_id" c.metadata, alookup "object" c.metadata)) =
      [(some "", some "")]) ∧
    ((analyzeImagesCore c2entries 5).map (fun c => alookup "type" c.metadata) =
      [some "repeating_unwanted_element"]) ∧
    (c2entries.all (fun pr => pr.2.all (fun img => img.id != "" && img.obj != "")) = true) := by
  refine ⟨of_decide_eq_true (by with_unfolding_all rfl),
    of_decide_eq_true (by with_unfolding_all rfl), by decide⟩

/-- Image A of the C3 document: `"AB-1"`, 100×100, `31.0KB`. -/
def c3imgA : imageInfo := ⟨"AB-1", "7 0 R", 100, 100, "31.0KB", false, false, "RGB"⟩

/-- Image B of the C3 document: `"AB-2"`, 200×200, `30.6KB` (same rounded
size key `31KB`, different signature). -/
def c3imgB : imageInfo := ⟨"AB-2", "9 0 R", 200, 200, "30.6KB", false, false, "RGB"⟩

/-- The 2-page C3 document, iterating `imagesByPage` as page 1 then page 2. -/
def c3order1 : List (ℤ × List imageInfo) := [(1, [c3imgA]), (2, [c3imgB])]

/-- The same document, iterating `imagesByPage` as page 2 then page 1 — Go
map iteration order is unspecified, so both orders are real executions. -/
def c3order2 : List (ℤ × List imageInfo) := [(2, [c3imgB]), (1, [c3imgA])]

/-- C3 (code bug): the two iteration orders of the same document are a
permutation of one another, yet the analysis emits different candidate sets:
the Pass-A representative (hence the handled signature) depends on the
order, so a different signature is left over for Pass B, which then emits a
candidate with a different ID (`…_200x200_` vs `…_100x100_`).  Candidate-set
equality across runs fails, refuting deterministic analysis. -/
theorem analyzeImagesCore_order_dependent :
    c3order1.Perm c3order2 ∧
    ((analyzeImagesCore c3order1 2).map (fun c => c.id)).contains
        "repeating_unwanted_element_200x200_" = true ∧
    ((analyzeImagesCore c3order2 2).map (fun c => c.id)).contains
        "repeating_unwanted_element_200x200_" = false ∧
    analyzeImagesCore c3order1 2 ≠ analyzeImagesCore c3order2 2 := by
  refine ⟨by decide, of_decide_eq_true (by with_unfolding_all rfl),
    of_decide_eq_true (by with_unfolding_all rfl),
    of_decide_eq_true (by with_unfolding_all rfl)⟩

/-! ## Structure of the `imagesBySize` grouping (Pass A machinery) -/

/-- The elements of the prefix group that land in size group `k`. -/
def sizeFilter (l : List imageWithPage) (k : String) : List imageWithPage :=
  l.filter (fun ip => qualifiesSize ip && (sizeKeyOf ip == k))

def keysOf {κ α : Type} (m : List (κ × α)) : List κ := m.map Prod.fst

theorem alookup_assocAppend {κ α : Type} [DecidableEq κ]
    (m : List (κ × List α)) (k k' : κ) (v : α) :
    alookup k (assocAppend m k' v) =
      if k' = k then some (((alookup k m).getD []) ++ [v]) else alookup k m := by
  induction m with
  | nil =>
    by_cases h : k' = k
    · simp [assocAppend, alookup, h]
    · simp [assocAppend, alookup, h]
  | cons pr rest ih =>
    obtain ⟨k₀, vs⟩ := pr
    unfold assocAppend
    by_cases h0 : k₀ = k'
    · rw [if_pos h0]
      by_cases hk : k' = k
      · have h0k : k₀ = k := h0.trans hk
        simp [alookup, h0k, hk]
      · have h0k : ¬ k₀ = k := fun hh => hk (h0.symm.trans hh)
        simp [alookup, h0k, hk]
    · rw [if_neg h0]
      by_cases hk0 : k₀ = k
      · have h'k : ¬ k' = k := fun hh => h0 (hk0.trans hh.symm)
        simp [alookup, hk0, h'k]
      · simp [alookup, hk0, ih]

theorem keysOf_assocAppend {κ α : Type} [DecidableEq κ]
    (m : List (κ × List α)) (k : κ) (v : α) :
    keysOf (assocAppend m k v) =
      if k ∈ keysOf m then keysOf m else keysOf m ++ [k] := by
  induction m with
  | nil => simp [assocAppend, keysOf]
  | cons pr rest ih =>
    obtain ⟨k₀, vs⟩ := pr
    unfold assocAppend
    by_cases h0 : k₀ = k
    · rw [if_pos h0]
      simp [keysOf, h0]
    · rw [if_neg h0]
      have hstep : keysOf ((k₀, vs) :: assocAppend rest k v) =
          k₀ :: keysOf (assocAppend rest k v) := rfl
      have hstep2 : keysOf ((k₀, vs) :: rest) = k₀ :: keysOf rest := rfl
      rw [hstep, ih, hstep2]
      by_cases hk : k ∈ keysOf rest
      · rw [if_pos hk, if_pos (List.mem_cons_of_mem _ hk)]
      · rw [if_neg hk, if_neg ?hno]
        · simp
        case hno =>
          intro hh
          rcases List.mem_cons.mp hh with hh | hh
          · exact h0 hh.symm
          · exact hk hh

theorem keysOf_assocAppend_nodup {κ α : Type} [DecidableEq κ]
    (m : List (κ × List α)) (k : κ) (v : α) (h : (keysOf m).Nodup) :
    (keysOf (assocAppend m k v)).Nodup := by
  rw [keysOf_assocAppend]
  by_cases hk : k ∈ keysOf m
  · rwa [if_pos hk]
  · rw [if_neg hk]
    simp [List.nodup_append, h, hk]

theorem alookup_of_mem {κ α : Type} [DecidableEq κ]
    {m : List (κ × α)} {k : κ} {v : α} (hnd : (keysOf m).Nodup) (hmem : (k, v) ∈ m) :
    alookup k m = some v := by
  induction m with
  | nil => exact absurd hmem (List.not_mem_nil _)
  | cons pr rest ih =>
    obtain ⟨k₀, v₀⟩ := pr
    have hnd' : (k₀ :: keysOf rest).Nodup := hnd
    have hnd2 := List.nodup_cons.mp hnd'
    rcases List.mem_cons.mp hmem with h | h
    · obtain ⟨hk, hv⟩ := Prod.mk.inj h
      subst hk
      subst hv
      simp [alookup]
    · have hk0 : ¬ k₀ = k := by
        intro hh
        subst hh
        exact hnd2.1 (List.mem_map_of_mem Prod.fst h)
      simp only [alookup, if_neg hk0]
      exact ih hnd2.2 h

theorem alookup_buildSizeGroups_aux (l : List imageWithPage) :
    ∀ (m : List (String × List imageWithPage)) (k : String),
      alookup k (l.foldl
          (fun m ip => if qualifiesSize ip then assocAppend m (sizeKeyOf ip) ip else m) m) =
        match alookup k m with
        | some vs => some (vs ++ sizeFilter l k)
        | none => if sizeFilter l k = [] then none else some (sizeFilter l k) := by
  induction l with
  | nil =>
    intro m k
    simp only [List.foldl_nil]
    cases h : alookup k m <;> simp [sizeFilter, h]
  | cons ip l ih =>
    intro m k
    simp only [List.foldl_cons]
    by_cases hq : qualifiesSize ip
    · rw [if_pos hq]
      by_cases hk : sizeKeyOf ip = k
      · have hfil : sizeFilter (ip :: l) k = ip :: sizeFilter l k := by
          simp [sizeFilter, List.filter_cons, hq, hk]
        rw [ih (assocAppend m (sizeKeyOf ip) ip) k, alookup_assocAppend m k (sizeKeyOf ip) ip,
          if_pos hk, hfil]
        cases h : alookup k m <;> simp [h]
      · have hfil : sizeFilter (ip :: l) k = sizeFilter l k := by
          simp [sizeFilter, List.filter_cons, hq, hk]
        rw [ih (assocAppend m (sizeKeyOf ip) ip) k, alookup_assocAppend m k (sizeKeyOf ip) ip,
          if_neg hk, hfil]
    · rw [if_neg hq]
      have hfil : sizeFilter (ip :: l) k = sizeFilter l k := by
        simp [sizeFilter, List.filter_cons, hq]
      rw [ih m k, hfil]

theorem buildSizeGroups_lookup (l : List imageWithPage) (k : String) :
    alookup k (buildSizeGroups l) =
      if sizeFilter l k = [] then none else some (sizeFilter l k) := by
  unfold buildSizeGroups
  rw [alookup_buildSizeGroups_aux l [] k]
  rfl

theorem buildSizeGroups_keysNodup (l : List imageWithPage) :
    (keysOf (buildSizeGroups l)).Nodup := by
  suffices h : ∀ (m : List (String × List imageWithPage)), (keysOf m).Nodup →
      (keysOf (l.foldl
        (fun m ip => if qualifiesSize ip then assocAppend m (sizeKeyOf ip) ip else m) m)).Nodup by
    exact h [] (by simp [keysOf])
  induction l with
  | nil => intro m hm; simpa using hm
  | cons ip l ih =>
    intro m hm
    simp only [List.foldl_cons]
    by_cases hq : qualifiesSize ip
    · rw [if_pos hq]
      exact ih _ (keysOf_assocAppend_nodup m (sizeKeyOf ip) ip hm)
    · rw [if_neg hq]
      exact ih m hm

/-- Every entry of the `imagesBySize` map is exactly the (non-empty) list of
qualifying images with that rounded size key, in prefix-group order. -/
theorem buildSizeGroups_mem (l : List imageWithPage) (k : String) (S : List imageWithPage)
    (h : (k, S) ∈ buildSizeGroups l) : S = sizeFilter l k ∧ S ≠ [] := by
  have hl := alookup_of_mem (buildSizeGroups_keysNodup l) h
  rw [buildSizeGroups_lookup] at hl
  by_cases hf : sizeFilter l k = []
  · rw [if_pos hf] at hl
    exact absurd hl (by simp)
  · rw [if_neg hf] at hl
    have heq := Option.some.inj hl
    exact ⟨heq.symm, heq ▸ hf⟩

theorem truncNat_coverage_le (N : ℕ) :
    truncNat ((N : ℚ) * MinPageCoverageThreshold) ≤ N := by
  unfold truncNat MinPageCoverageThreshold
  have h1 : (N : ℚ) * (4/5) ≤ (N : ℚ) := by
    nlinarith [Nat.cast_nonneg (α := ℚ) N]
  have h2 : ⌊(N : ℚ) * (4/5)⌋ ≤ (N : ℤ) := by
    calc ⌊(N : ℚ) * (4/5)⌋ ≤ ⌊(N : ℚ)⌋ := Int.floor_le_floor h1
    _ = (N : ℤ) := Int.floor_natCast N
  exact Int.toNat_le.mpr h2

/-! ## C1: Pass A emission -/

/-- One `31KB` image of prefix `"AB"` on page `i`. -/
def c1img (i : ℕ) : imageWithPage :=
  ⟨⟨"AB-" ++ toString i, toString (6 + i) ++ " 0 R", 100, 100, "31KB", false, false, "RGB"⟩,
    (i : ℤ)⟩

/-- A prefix group with exactly one occurrence on each of pages 1–4 of a
5-page document: 4 = ⌈0.8·5⌉ distinct pages, all images at 31KB ≥ the floor. -/
def c1group4 : List imageWithPage := [c1img 1, c1img 2, c1img 3, c1img 4]

/-- The same group plus a duplicate occurrence on page 4: 5 occurrences on 4
distinct pages. -/
def c1group5 : List imageWithPage := c1group4 ++ [⟨⟨"AB-5", "11 0 R", 100, 100, "31KB",
  false, false, "RGB"⟩, 4⟩]

/-- C1 counterexample: the sub-group `c1group4` has one occurrence on each of
`⌈0.8·5⌉ = 4` distinct pages of a 5-page document (and none elsewhere), every
image parses to 31KB ≥ the 30KB floor, and its coverage ratio `4/5` meets the
threshold — yet Pass A emits *no* candidate, because the loop first requires
`len(sizeGroup) >= totalPages` occurrences (analyze.go line 650), which the
claim's scenario cannot satisfy. -/
theorem detectFullPage_coverage_counterexample :
    c1group4.all qualifiesSize = true ∧
    distinctPageCount c1group4 = 4 ∧
    MinPageCoverageThreshold ≤ (distinctPageCount c1group4 : ℚ) / (5 : ℚ) ∧
    detectFullPageUnwanted [("AB", c1group4)] 5 = [] :=
  of_decide_eq_true (by with_unfolding_all rfl)

/-- C1 amended: for every prefix group and every rounded-file-size sub-group
(all of whose images parse to at least the 30KB floor — these are exactly the
entries of the `imagesBySize` grouping), Pass A emits a candidate whenever
the sub-group has **at least `totalPages` occurrences** *and* its
distinct-page coverage ratio meets the 0.8 threshold; the candidate has
metadata type `repeating_watermark` and confidence
`0.80 + coveragePercent·0.15` when coverage is below 100%
(`fullpage_watermark` and 0.95 at 100%).  The occurrence-count requirement is
the amendment forced by the counterexample. -/
theorem detectFullPage_amended (byPfx : List (String × List imageWithPage))
    (totalPages : ℕ) (pfx : String) (images S : List imageWithPage) (k : String)
    (hmem : (pfx, images) ∈ byPfx)
    (hS : (k, S) ∈ buildSizeGroups images)
    (hlen : totalPages ≤ S.length)
    (hcov : MinPageCoverageThreshold ≤ (distinctPageCount S : ℚ) / (totalPages : ℚ)) :
    ∃ c ∈ detectFullPageUnwanted byPfx totalPages,
      c.id = (if distinctPageCount S = totalPages then "fullpage_watermark"
              else "repeating_watermark") ++ "_" ++ pfx ++ "_" ++ k ∧
      c.confidence = (if distinctPageCount S = totalPages then (19 : ℚ)/20
              else 4/5 + (distinctPageCount S : ℚ) / (totalPages : ℚ) * (15/100)) ∧
      alookup "type" c.metadata = some (if distinctPageCount S = totalPages
              then "fullpage_watermark" else "repeating_watermark") := by
  obtain ⟨hSF, hSne⟩ := buildSizeGroups_mem images k S hS
  have hfle : S.length ≤ images.length := by
    rw [hSF]
    exact List.length_filter_le _ _
  have hgate : ¬ (images.length < truncNat ((totalPages : ℚ) * MinPageCoverageThreshold)) := by
    have := truncNat_coverage_le totalPages
    omega
  have hg0 : ¬ ((buildSizeGroups images).length = 0) := by
    intro h0
    rw [List.length_eq_zero.mp h0] at hS
    exact absurd hS (List.not_mem_nil _)
  have hemit : ∃ c ∈ emitForSizeGroup pfx totalPages k S,
      c.id = (if distinctPageCount S = totalPages then "fullpage_watermark"
              else "repeating_watermark") ++ "_" ++ pfx ++ "_" ++ k ∧
      c.confidence = (if distinctPageCount S = totalPages then (19 : ℚ)/20
              else 4/5 + (distinctPageCount S : ℚ) / (totalPages : ℚ) * (15/100)) ∧
      alookup "type" c.metadata = some (if distinctPageCount S = totalPages
              then "fullpage_watermark" else "repeating_watermark") := by
    unfold emitForSizeGroup
    rw [if_neg (by omega), if_pos hcov]
    exact ⟨_, List.mem_singleton_self _, rfl, rfl, rfl⟩
  obtain ⟨c, hcmem, hprops⟩ := hemit
  refine ⟨c, ?_, hprops⟩
  unfold detectFullPageUnwanted
  apply List.mem_flatMap.mpr
  refine ⟨(pfx, images), hmem, ?_⟩
  unfold detectForPfx
  rw [if_neg hgate, if_neg hg0]
  exact List.mem_flatMap.mpr ⟨(k, S), hS, hcmem⟩

/-- Witness for C1's amended theorem: `c1group5` — 5 occurrences covering the
4 distinct pages 1–4 of a 5-page document — yields the `repeating_watermark`
candidate with confidence `0.80 + (4/5)·0.15 = 0.92`. -/
theorem detectFullPage_amended_witness :
    ∃ c ∈ detectFullPageUnwanted [("AB", c1group5)] 5,
      c.id = (if distinctPageCount c1group5 = 5 then "fullpage_watermark"
              else "repeating_watermark") ++ "_" ++ "AB" ++ "_" ++ "31KB" ∧
      c.confidence = (if distinctPageCount c1group5 = 5 then (19 : ℚ)/20
              else 4/5 + (distinctPageCount c1group5 : ℚ) / (5 : ℚ) * (15/100)) ∧
      alookup "type" c.metadata = some (if distinctPageCount c1group5 = 5
              then "fullpage_watermark" else "repeating_watermark") :=
  detectFullPage_amended [("AB", c1group5)] 5 "AB" c1group5 c1group5 "31KB"
    (List.mem_singleton_self _)
    (of_decide_eq_true (by with_unfolding_all rfl))
    (of_decide_eq_true (by with_unfolding_all rfl))
    (of_decide_eq_true (by with_unfolding_all rfl))

/-! ## C6: the 100%-coverage case -/

theorem buildSizeGroups_const_aux (k : String) (l : List imageWithPage) :
    ∀ acc : List imageWithPage,
      (∀ ip ∈ l, qualifiesSize ip = true ∧ sizeKeyOf ip = k) →
      (l.foldl (fun m ip => if qualifiesSize ip then assocAppend m (sizeKeyOf ip) ip else m)
          [(k, acc)]) = [(k, acc ++ l)] := by
  induction l with
  | nil => intro acc _; simp
  | cons ip l ih =>
    intro acc h
    obtain ⟨hq, hk⟩ := h ip (List.mem_cons_self ip l)
    simp only [List.foldl_cons, if_pos hq, hk]
    have hstep : assocAppend [(k, acc)] k ip = [(k, acc ++ [ip])] := by
      simp [assocAppend]
    rw [hstep, ih (acc ++ [ip]) (fun x hx => h x (List.mem_cons_of_mem ip hx))]
    simp

/-- When every image of the prefix group qualifies and shares one size key,
the `imagesBySize` map is the single group `[(k, L)]`. -/
theorem buildSizeGroups_const (L : List imageWithPage) (k : String)
    (hq : ∀ ip ∈ L, qualifiesSize ip = true) (hk : ∀ ip ∈ L, sizeKeyOf ip = k)
    (hne : L ≠ []) : buildSizeGroups L = [(k, L)] := by
  cases L with
  | nil => exact absurd rfl hne
  | cons ip l =>
    unfold buildSizeGroups
    simp only [List.foldl_cons, if_pos (hq ip (List.mem_cons_self ip l))]
    have hstep : assocAppend [] (sizeKeyOf ip) ip = [(sizeKeyOf ip, [ip])] := by
      simp [assocAppend]
    rw [hstep, hk ip (List.mem_cons_self ip l),
      buildSizeGroups_const_aux k l [ip]
        (fun x hx => ⟨hq x (List.mem_cons_of_mem ip hx), hk x (List.mem_cons_of_mem ip hx)⟩)]
    simp

/-- A 2-page document with one `"AB"`/31KB image on each page. -/
def c1group2 : List imageWithPage := [c1img 1, c1img 2]

/-- C6: for every prefix/size group — a shared prefix, every image carrying
the same file-size string `s` parsing to at least 30KB — with exactly one
occurrence on every one of the document's `N ≥ 1` pages, Pass A emits
exactly one candidate for that group, with confidence exactly 0.95 and
metadata type `fullpage_watermark`.  (`detectForPfx` is precisely the set of
Pass-A candidates produced for this prefix group.) -/
theorem detectForPfx_fullpage (pfx s : String) (L : List imageWithPage) (N : ℕ)
    (hN : 1 ≤ N)
    (hsz : ∀ ip ∈ L, ip.img.size = s)
    (hpar : MinWatermarkFileSizeKB ≤ parseFileSizeKB s)
    (hperm : (L.map (·.page)).Perm ((List.range N).map (fun i => Int.ofNat i + 1))) :
    ∃ c, detectForPfx pfx L N = [c] ∧ c.confidence = (19 : ℚ)/20 ∧
      alookup "type" c.metadata = some "fullpage_watermark" ∧
      c.id = "fullpage_watermark" ++ "_" ++ pfx ++ "_"
        ++ (formatRat0 (parseFileSizeKB s) ++ "KB") := by
  have hlenL : L.length = N := by
    have h := hperm.length_eq
    rw [List.length_map, List.length_map, List.length_range] at h
    exact h
  have hnd : (L.map (·.page)).Nodup := by
    refine hperm.nodup_iff.mpr ?_
    refine List.Nodup.map ?_ (List.nodup_range N)
    intro a b hab
    have hab' : Int.ofNat a + 1 = Int.ofNat b + 1 := hab
    exact Int.ofNat.inj (add_right_cancel hab')
  have hL0 : L ≠ [] := by
    intro h
    rw [h] at hlenL
    simp at hlenL
    omega
  have hkey : ∀ ip ∈ L, qualifiesSize ip = true ∧
      sizeKeyOf ip = formatRat0 (parseFileSizeKB s) ++ "KB" := by
    intro ip hip
    constructor
    · unfold qualifiesSize
      rw [hsz ip hip]
      exact decide_eq_true hpar
    · unfold sizeKeyOf
      rw [hsz ip hip]
  have hgroups : buildSizeGroups L = [(formatRat0 (parseFileSizeKB s) ++ "KB", L)] :=
    buildSizeGroups_const L (formatRat0 (parseFileSizeKB s) ++ "KB")
      (fun ip hip => (hkey ip hip).1) (fun ip hip => (hkey ip hip).2) hL0
  have hdpc : distinctPageCount L = N := by
    unfold distinctPageCount
    rw [List.dedup_eq_self.mpr hnd, List.length_map, hlenL]
  unfold detectForPfx
  rw [if_neg (by have := truncNat_coverage_le N; omega), hgroups,
    if_neg (by simp)]
  have hflat : ([(formatRat0 (parseFileSizeKB s) ++ "KB", L)].flatMap
      (fun pr => emitForSizeGroup pfx N pr.1 pr.2)) =
      emitForSizeGroup pfx N (formatRat0 (parseFileSizeKB s) ++ "KB") L := by
    simp
  rw [hflat]
  unfold emitForSizeGroup
  rw [if_neg (by omega)]
  rw [if_pos ?hcov]
  case hcov =>
    rw [hdpc]
    rw [div_self (by positivity : ((N : ℚ)) ≠ 0)]
    norm_num [MinPageCoverageThreshold]
  simp only [hdpc, if_pos rfl]
  exact ⟨_, rfl, rfl, rfl, rfl⟩

/-- Witness for C6 on a concrete 2-page document fully covered by the
`"AB"`/`"31KB"` group. -/
theorem detectForPfx_fullpage_witness :
    ∃ c, detectForPfx "AB" c1group2 2 = [c] ∧ c.confidence = (19 : ℚ)/20 ∧
      alookup "type" c.metadata = some "fullpage_watermark" ∧
      c.id = "fullpage_watermark" ++ "_" ++ "AB" ++ "_"
        ++ (formatRat0 (parseFileSizeKB "31KB") ++ "KB") :=
  detectForPfx_fullpage "AB" "31KB" c1group2 2 (by omega)
    (of_decide_eq_true (by with_unfolding_all rfl))
    (of_decide_eq_true (by with_unfolding_all rfl))
    (of_decide_eq_true (by with_unfolding_all rfl))

/-! ## C5: removal-engine error semantics -/

theorem buildCalls_ok (l : List imageOccurrence) (h : ∀ o ∈ l, o.obj ≠ "") :
    buildCalls l = Except.ok (l.map (fun o => RemovalCall.byObj o.obj)) := by
  induction l with
  | nil => rfl
  | cons o rest ih =>
    unfold buildCalls
    rw [if_pos (h o (List.mem_cons_self o rest)),
      ih (fun x hx => h x (List.mem_cons_of_mem o hx))]
    rfl

theorem strategy3_subset (signature pfx : String) (allOcc : List imageOccurrence)
    (o : imageOccurrence) (ho : o ∈ strategy3 signature pfx allOcc) : o ∈ allOcc := by
  simp only [strategy3] at ho
  repeat' split at ho
  all_goals first
    | exact List.mem_of_mem_filter ho
    | exact absurd ho (List.not_mem_nil o)

theorem strategy4_subset (imgID objNr : String) (candPage : ℤ)
    (allOcc : List imageOccurrence) (o : imageOccurrence)
    (ho : o ∈ strategy4 imgID objNr candPage allOcc) : o ∈ allOcc := by
  simp only [strategy4] at ho
  split at ho
  · split at ho
    · cases hf : allOcc.find? (fun o => o.id = imgID ∧ o.page = candPage) with
      | none => rw [hf] at ho; exact absurd ho (List.not_mem_nil o)
      | some o' =>
        rw [hf] at ho
        simp only [Option.toList_some, List.mem_singleton] at ho
        exact ho ▸ List.mem_of_find?_eq_some hf
    · cases hf : allOcc.find? (fun o => o.obj = objNr ∧ o.page = candPage) with
      | none => rw [hf] at ho; exact absurd ho (List.not_mem_nil o)
      | some o' =>
        rw [hf] at ho
        simp only [Option.toList_some, List.mem_singleton] at ho
        exact ho ▸ List.mem_of_find?_eq_some hf
  · exact absurd ho (List.not_mem_nil o)

theorem resolveOccurrences_subset (imgID pfx signature objNr : String) (candPage : ℤ)
    (allOcc : List imageOccurrence) (o : imageOccurrence)
    (ho : o ∈ resolveOccurrences imgID pfx signature objNr candPage allOcc) :
    o ∈ allOcc := by
  simp only [resolveOccurrences] at ho
  repeat' split at ho
  all_goals first
    | exact List.mem_of_mem_filter ho
    | exact absurd ho (List.not_mem_nil o)
    | exact strategy3_subset signature pfx allOcc o ho
    | exact strategy4_subset imgID objNr candPage allOcc o ho

theorem resolveSelected_subset (candidates : List UnwantedElementCandidate)
    (selected : List String) (allOcc : List imageOccurrence) (o : imageOccurrence)
    (ho : o ∈ resolveSelected candidates selected allOcc) : o ∈ allOcc := by
  unfold resolveSelected at ho
  obtain ⟨c, _, ho2⟩ := List.mem_flatMap.mp ho
  split at ho2
  · exact resolveOccurrences_subset _ _ _ _ _ allOcc o ho2
  · exact absurd ho2 (List.not_mem_nil o)

/-- C5: with a well-formed occurrence table (every parsed occurrence carries
a non-empty object token, which `strings.Fields` guarantees), the removal
operation returns the hard no-match error *iff* the total number of resolved
occurrences across all selected candidates is zero, and that error — issued
before any external removal call — is the only error it can return; a
selected candidate whose four strategies all resolve to zero occurrences
contributes nothing while the other candidates still process. -/
theorem removeImagesByIDs_spec (candidates : List UnwantedElementCandidate)
    (selected : List String) (allOcc : List imageOccurrence)
    (hobj : ∀ o ∈ allOcc, o.obj ≠ "") :
    (removeImagesByIDsModel candidates selected allOcc = Except.error noMatchMsg ↔
      resolveSelected candidates selected allOcc = []) ∧
    (∀ e, removeImagesByIDsModel candidates selected allOcc = Except.error e →
      e = noMatchMsg) ∧
    (∀ (l₁ l₂ : List UnwantedElementCandidate) (c : UnwantedElementCandidate),
      resolveForCandidate c allOcc = [] →
      resolveSelected (l₁ ++ c :: l₂) selected allOcc =
        resolveSelected (l₁ ++ l₂) selected allOcc) := by
  have hok : buildCalls (resolveSelected candidates selected allOcc) =
      Except.ok ((resolveSelected candidates selected allOcc).map
        (fun o => RemovalCall.byObj o.obj)) :=
    buildCalls_ok _ (fun o ho => hobj o (resolveSelected_subset candidates selected allOcc o ho))
  refine ⟨⟨?_, ?_⟩, ?_, ?_⟩
  · intro herr
    by_contra hne
    simp only [removeImagesByIDsModel] at herr
    rw [if_neg hne, hok] at herr
    exact absurd herr (by simp)
  · intro hz
    simp only [removeImagesByIDsModel]
    rw [if_pos hz]
  · intro e he
    simp only [removeImagesByIDsModel] at he
    by_cases hz : resolveSelected candidates selected allOcc = []
    · rw [if_pos hz] at he
      exact (Except.error.inj he).symm
    · rw [if_neg hz, hok] at he
      exact absurd he (by simp)
  · intro l₁ l₂ c hres
    unfold resolveSelected
    rw [List.flatMap_append, List.flatMap_append, List.flatMap_cons]
    have hmid : (if (selected.map trimSpace).contains c.id
        then resolveForCandidate c allOcc else []) = [] := by
      split
      · exact hres
      · rfl
    rw [hmid]
    simp

/-- A one-row occurrence table. -/
def c5occ : List imageOccurrence := [⟨1, "7 0 R", "AB-1"⟩]

/-- A selected candidate that resolves to the single occurrence. -/
def c5candGood : UnwantedElementCandidate :=
  ⟨"image", "cand-good", 0, "", 9/10, [("image_id", "AB-1"), ("prefix", "AB")]⟩

/-- A selected candidate on which all four strategies fail. -/
def c5candBad : UnwantedElementCandidate :=
  ⟨"image", "cand-bad", 0, "", 1/2,
    [("image_id", "ZZ-9"), ("prefix", "QQ"), ("signature", ""), ("object", "")]⟩

/-- Witness for C5 at a concrete batch: one unresolvable and one resolvable
selected candidate over `c5occ`. -/
theorem removeImagesByIDs_spec_witness :
    (removeImagesByIDsModel [c5candBad, c5candGood] ["cand-bad", "cand-good"] c5occ =
        Except.error noMatchMsg ↔
      resolveSelected [c5candBad, c5candGood] ["cand-bad", "cand-good"] c5occ = []) ∧
    (∀ e, removeImagesByIDsModel [c5candBad, c5candGood] ["cand-bad", "cand-good"] c5occ =
        Except.error e → e = noMatchMsg) ∧
    (∀ (l₁ l₂ : List UnwantedElementCandidate) (c : UnwantedElementCandidate),
      resolveForCandidate c c5occ = [] →
      resolveSelected (l₁ ++ c :: l₂) ["cand-bad", "cand-good"] c5occ =
        resolveSelected (l₁ ++ l₂) ["cand-bad", "cand-good"] c5occ) :=
  removeImagesByIDs_spec [c5candBad, c5candGood] ["cand-bad", "cand-good"] c5occ
    (by decide)

end AcPdfTools
